import Mathlib

namespace QuantML

/-!
Shallow embedding of the feature-engineering and sentiment-aggregation core of
the Machine-Learning-Driven-Quantitative-Trading repository:

* `src/data_processing/data_preprocessing.py` — the outlier primitives
  `detect_outliers` / `calculate_outlier_score` and the OHLCV feature engine
  `normalize_price_movements`;
* `src/data_collection/data_collection_news.py` — `aggregate_daily_sentiment`.

A pandas `Series` of floats is modelled as a `List (Option ℝ)` in positional
order: a `none` cell is a missing value (NaN), `some x` is the float `x`.
NumPy/pandas floats are modelled as real numbers (no floating-point rounding).
-/

/-- Model of `series.dropna()` (lines 60 and 84 of `data_preprocessing.py`): the
non-missing values, in order. -/
def dropna (s : List (Option ℝ)) : List ℝ := s.filterMap id

/-- Helper for `naIndex`: positions of the non-missing cells, counting from
`i`. -/
def naIndexAux : ℕ → List (Option ℝ) → List ℕ
  | _, [] => []
  | i, none :: rest => naIndexAux (i + 1) rest
  | i, some _ :: rest => i :: naIndexAux (i + 1) rest

/-- The index pandas attaches to `series.dropna()`: the positions of the
non-missing cells of the input series. -/
def naIndex (s : List (Option ℝ)) : List ℕ := naIndexAux 0 s

/-- Model of `np.mean`.  (On the empty list this is the junk value `0 / 0 = 0` where
NumPy yields NaN; every use below is guarded by branches that make the two
semantics agree on all observable outputs.) -/
noncomputable def npMean (xs : List ℝ) : ℝ := xs.sum / xs.length

/-- Model of `np.std` with its default `ddof = 0`: the population standard deviation
`sqrt(mean((x - mean(x))²))`. -/
noncomputable def npStd (xs : List ℝ) : ℝ :=
  Real.sqrt ((xs.map (fun x => (x - npMean xs) ^ 2)).sum / xs.length)

/-- Model of `np.min` on a nonempty list (the empty case is never reached below,
NumPy would raise there). -/
noncomputable def npMin : List ℝ → ℝ
  | [] => 0
  | x :: xs => xs.foldl min x

/-- Model of `np.max` on a nonempty list (the empty case is never reached below). -/
noncomputable def npMax : List ℝ → ℝ
  | [] => 0
  | x :: xs => xs.foldl max x

/-- Lines 60–63 of `data_preprocessing.py`: the absolute z-scores
`|x − mean| / std` of the non-missing values when `std > 0`, otherwise
`np.zeros_like(series_no_nan)`. -/
noncomputable def zScoresOrZeros (s : List (Option ℝ)) : List ℝ :=
  let v := dropna s
  if 0 < npStd v then v.map (fun x => |x - npMean v| / npStd v)
  else v.map (fun _ => 0)

/-- Lines 42–64, `detect_outliers(series, threshold=3)`: the boolean outlier
mask `z_scores > threshold`, indexed by the non-missing positions of the
input. -/
noncomputable def detect_outliers (s : List (Option ℝ)) (threshold : ℝ := 3) :
    List (ℕ × Bool) :=
  (naIndex s).zip ((zScoresOrZeros s).map (fun z => decide (threshold < z)))

/-- Lines 66–97, `calculate_outlier_score(series)`: absolute z-scores of the
non-missing values, min-max rescaled to `[0, 1]` when `max_z > min_z`, left
unscaled when `max_z = min_z`, and all zeros when `std = 0`; the result is
indexed by the non-missing positions of the input
(`pd.Series(outlier_scores, index=series_no_nan.index)`). -/
noncomputable def calculate_outlier_score (s : List (Option ℝ)) :
    List (ℕ × ℝ) :=
  let v := dropna s
  let mean := npMean v
  let std := npStd v
  let scores :=
    if 0 < std then
      let z := v.map (fun x => |x - mean| / std)
      let minz := npMin z
      let maxz := npMax z
      if minz < maxz then z.map (fun zi => (zi - minz) / (maxz - minz)) else z
    else
      v.map (fun _ => 0)
  (naIndex s).zip scores

/-- The raw absolute z-scores `|x − mean| / std` over the non-missing values
of a series (the `z_scores` local of lines 63 and 89). -/
noncomputable def zRaw (s : List (Option ℝ)) : List ℝ :=
  (dropna s).map (fun x => |x - npMean (dropna s)| / npStd (dropna s))

/-- A concrete series with population standard deviation 1 and non-constant
z-scores, exercising the min-max rescaling branch. -/
def w4 : List (Option ℝ) :=
  [some (-2), some (-1), some 0, some 1, some 2, some 0, some 0, some 0,
   some 0, some 0]

/-- The sample standard deviation (`ddof = 1`) that claim C5 attributes to
`detect_outliers`; written from the claim's words, to be compared with the
source's `np.std`. -/
noncomputable def sampleStd (xs : List ℝ) : ℝ :=
  Real.sqrt ((xs.map (fun x => (x - npMean xs) ^ 2)).sum / ((xs.length : ℝ) - 1))

/-- Claim C5's description of `detect_outliers`, written from its words:
drop missing values, flag `x` exactly when `|x − μ| / σ > threshold` with
`σ` the sample standard deviation, and flag nothing when `σ = 0`. -/
noncomputable def detect_outliers_claimed_sample (s : List (Option ℝ))
    (threshold : ℝ := 3) : List (ℕ × Bool) :=
  (naIndex s).zip ((dropna s).map (fun x =>
    if sampleStd (dropna s) = 0 then false
    else decide (|x - npMean (dropna s)| / sampleStd (dropna s) > threshold)))

/-- Claim C5 amended: the same mask but with the population standard
deviation (NumPy `std`, `ddof = 0`), nothing flagged when `σ = 0` (stated
for nonnegative thresholds). -/
noncomputable def detect_outliers_claimed_pop (s : List (Option ℝ))
    (threshold : ℝ := 3) : List (ℕ × Bool) :=
  (naIndex s).zip ((dropna s).map (fun x =>
    if npStd (dropna s) = 0 then false
    else decide (|x - npMean (dropna s)| / npStd (dropna s) > threshold)))

/-- The affinely rescaled series `a·x + b` (missing cells stay missing, as
NaN is absorbing for pandas arithmetic). -/
def affineMap (a b : ℝ) (s : List (Option ℝ)) : List (Option ℝ) :=
  s.map (Option.map (fun x => a * x + b))

/-!
Embedding of `aggregate_daily_sentiment` (lines 260–308 of
`data_collection_news.py`).  Upstream of the grouping the source resolves a
`sentiment_score` per article (provider score or TextBlob polarity, lines
281–290) and parses the publication timestamp into a calendar date (lines
276–279); both are external inputs here, so an article record carries its
already-resolved score and date key.  Every article has a `url`, so the
`'url': 'count'` aggregate (`article_count`) equals the group size, as does
the non-null `sentiment_score` count (`sentiment_count`).  pandas sorts the
group keys; the properties proved below do not depend on row order, and the
embedding keeps first-appearance order of the keys.
-/

/-- An article record as consumed by `aggregate_daily_sentiment`: target
symbol, calendar date of publication, resolved sentiment score. -/
structure Article where
  symbol : String
  date : String
  sentiment_score : ℝ

/-- One row of the daily sentiment summary produced by
`aggregate_daily_sentiment` (`sentiment_std` is `none` when pandas reports
NaN, i.e. for single-article groups). -/
structure DailySentimentRow where
  symbol : String
  date : String
  sentiment_mean : ℝ
  sentiment_std : Option ℝ
  sentiment_count : ℕ
  article_count : ℕ
  sentiment_confidence : ℝ

/-- IEEE/NumPy round-half-to-even to the nearest integer (the rounding used
by `DataFrame.round`). -/
noncomputable def roundHalfToEven (x : ℝ) : ℤ :=
  if Int.fract x = 1 / 2 then 2 * round (x / 2) else round x

/-- Model of `.round(4)`: round to 4 decimal places, ties to even. -/
noncomputable def round4 (x : ℝ) : ℝ :=
  (roundHalfToEven (x * 10000) : ℝ) / 10000

/-- pandas `GroupBy.std` (sample standard deviation, `ddof = 1`); NaN
(`none`) on a single observation. -/
noncomputable def pandasStd (xs : List ℝ) : Option ℝ :=
  if 2 ≤ xs.length then some (sampleStd xs) else none

/-- The `(symbol, date)` group keys of `df.groupby(['symbol', 'date'])`. -/
def groupKeys (articles : List Article) : List (String × String) :=
  (articles.map (fun a => (a.symbol, a.date))).dedup

/-- The sentiment scores of one `(symbol, date)` group. -/
def groupScores (articles : List Article) (k : String × String) : List ℝ :=
  (articles.filter (fun a => a.symbol == k.1 && a.date == k.2)).map
    (fun a => a.sentiment_score)

/-- Lines 292–308: group by `(symbol, date)`; per group take the rounded
mean and (sample) std of the scores and the counts, then
`sentiment_confidence = min(article_count / 10, 1.0) * (1 − std.fillna(0.5))`. -/
noncomputable def aggregate_daily_sentiment (articles : List Article) :
    List DailySentimentRow :=
  (groupKeys articles).map (fun k =>
    let scores := groupScores articles k
    let std := (pandasStd scores).map round4
    { symbol := k.1
      date := k.2
      sentiment_mean := round4 (npMean scores)
      sentiment_std := std
      sentiment_count := scores.length
      article_count := scores.length
      sentiment_confidence :=
        min ((scores.length : ℝ) / 10) 1 * (1 - std.getD (1 / 2)) })

/-- Two same-day articles on one symbol with maximally disagreeing scores
`−1` and `1` (both inside the `[−1, 1]` sentiment range). -/
def c1Articles : List Article :=
  [⟨"AAPL", "2024-01-02", -1⟩, ⟨"AAPL", "2024-01-02", 1⟩]

/-- The spec scenario: three NVDA articles on 2024-01-05 with scores
`[0.2, 0.4, 0.6]`. -/
noncomputable def c3Articles : List Article :=
  [⟨"NVDA", "2024-01-05", 1 / 5⟩, ⟨"NVDA", "2024-01-05", 2 / 5⟩,
   ⟨"NVDA", "2024-01-05", 3 / 5⟩]

/-!
Embedding of `normalize_price_movements` (lines 99–168 of
`data_preprocessing.py`).  A DataFrame is an association list from column
names to columns; a column is a list of cells in row order, a cell being a
missing value (`none`, NaN) or a float.  The row index is positional
(timestamps correspond to positions).  The model covers numeric tables: on
a column that already has float dtype the string-coercion loop of lines
124–132 tests `df[col].dtype == 'object'` and does nothing, so on this
table type it is the identity and is not represented.
-/

/-- A DataFrame column. -/
abbrev Col := List (Option ℝ)

/-- A DataFrame: column names with their columns, in column order. -/
abbrev DataFrame := List (String × Col)

/-- Column lookup `df[c]` when present (`None` when `c` is not a column). -/
def getCol (df : DataFrame) (c : String) : Option Col :=
  (df.find? (fun p => p.1 == c)).map (fun p => p.2)

/-- Test `c in df.columns`. -/
def hasCol (df : DataFrame) (c : String) : Bool := (getCol df c).isSome

/-- Assignment `df[c] = v`: pandas overwrites the column in place when the name
exists, otherwise appends it as the last column. -/
def setCol : DataFrame → String → Col → DataFrame
  | [], c, v => [(c, v)]
  | (n, w) :: rest, c, v =>
    if n == c then (n, v) :: rest else (n, w) :: setCol rest c v

/-- Model of `Series.pct_change(fill_method=None)` (line 136): fractional change
between consecutive rows, NaN on the first row and wherever either operand
is NaN.  (A zero previous close yields ±inf in pandas, which ℝ cannot
represent; no property below depends on such a cell.) -/
noncomputable def pctChange (c : Col) : Col :=
  ((none :: c).zip c).map (fun p =>
    match p.1, p.2 with
    | some prev, some cur => some ((cur - prev) / prev)
    | _, _ => none)

/-- Model of `Series.min()` (skips NaN; `none` when no value remains). -/
noncomputable def colMin (c : Col) : Option ℝ :=
  match dropna c with
  | [] => none
  | x :: xs => some (xs.foldl min x)

/-- Model of `Series.max()` (skips NaN; `none` when no value remains). -/
noncomputable def colMax (c : Col) : Option ℝ :=
  match dropna c with
  | [] => none
  | x :: xs => some (xs.foldl max x)

/-- Model of `Series.rolling(window=k).mean()`: trailing mean of the last `k` rows,
NaN until the window is full or when the window contains a NaN. -/
noncomputable def rollingMean (k : ℕ) (c : Col) : Col :=
  (List.range c.length).map (fun i =>
    let w := (c.take (i + 1)).drop (i + 1 - k)
    if decide (k ≤ i + 1) && w.all (fun o => o.isSome) then
      some ((w.filterMap id).sum / k)
    else none)

/-- Rowwise `df['High'] - df['Low']` (line 151), rowwise, NaN-propagating. -/
def subCols (hi lo : Col) : Col :=
  (hi.zip lo).map (fun p =>
    match p.1, p.2 with
    | some h, some l => some (h - l)
    | _, _ => none)

/-- Model of `df.loc[score.index, col] = score` (lines 156 and 160): a fresh column
of `len` rows holding the score at its index positions and NaN elsewhere. -/
def scatterScores (len : ℕ) (scores : List (ℕ × ℝ)) : Col :=
  (List.range len).map (fun i =>
    (scores.find? (fun p => p.1 == i)).map (fun p => p.2))

/-- Forward fill a column starting from the carried last valid value. -/
def ffillFrom : Option ℝ → Col → Col
  | _, [] => []
  | acc, none :: rest => acc :: ffillFrom acc rest
  | _, some x :: rest => some x :: ffillFrom (some x) rest

/-- Model of `fillna(method='ffill')` on one column (line 165). -/
def ffillCol (c : Col) : Col := ffillFrom none c

/-- Model of `fillna(method='bfill')` on one column (line 166). -/
def bfillCol (c : Col) : Col := (ffillFrom none c.reverse).reverse

/-- The terminal imputation pass, lines 165–166: forward fill then backward
fill, column by column. -/
def fillAllCols (df : DataFrame) : DataFrame :=
  df.map (fun p => (p.1, bfillCol (ffillFrom none p.2)))

/-- Lines 136–147: `Returns`, the conditional `NormalizedPrice`
(only when `max(Close) > min(Close)`; NaN min/max compare false), and the
three moving averages, in source order. -/
noncomputable def npmPriceFeatures (df : DataFrame) (close : Col) :
    DataFrame :=
  let d1 := setCol df "Returns" (pctChange close)
  let d2 :=
    match colMin close, colMax close with
    | some mn, some mx =>
      if mn < mx then
        setCol d1 "NormalizedPrice"
          (close.map (Option.map (fun x => (x - mn) / (mx - mn))))
      else d1
    | _, _ => d1
  setCol (setCol (setCol d2 "MA_5" (rollingMean 5 close)) "MA_20"
    (rollingMean 20 close)) "MA_50" (rollingMean 50 close)

/-- Lines 150–160: only when both `High` and `Low` are present, add
`Volatility = High − Low` and then (guarded by the source's
`'Returns' in df.columns` / `'Volatility' in df.columns` re-checks) the two
outlier-score columns, assigned back over the scored index. -/
noncomputable def npmVolatilityFeatures (df : DataFrame) (close : Col) :
    DataFrame :=
  match getCol df "High", getCol df "Low" with
  | some hi, some lo =>
    let vol := subCols hi lo
    let d6 := setCol df "Volatility" vol
    let d7 :=
      if hasCol d6 "Returns" then
        setCol d6 "ReturnsOutlierScore"
          (scatterScores close.length
            (calculate_outlier_score (pctChange close)))
      else d6
    if hasCol d7 "Volatility" then
      setCol d7 "VolatilityOutlierScore"
        (scatterScores close.length (calculate_outlier_score vol))
    else d7
  | _, _ => df

/-- Lines 99–168, `normalize_price_movements(df)`: when `Close` is present
(and numeric — always, on this table type), derive the price features and
the volatility/outlier features, then forward- and backward-fill every
column. -/
noncomputable def normalize_price_movements (df : DataFrame) : DataFrame :=
  fillAllCols
    (match getCol df "Close" with
     | some close => npmVolatilityFeatures (npmPriceFeatures df close) close
     | none => df)

/-- The caller's table after `normalize_price_movements(df)` returns: the
source mutates `df` in place (column assignments and the two
`fillna(..., inplace=True)` calls) and line 168 returns that same object,
so the argument's post-call state is the computed feature table. -/
noncomputable def tableAfterCall (df : DataFrame) : DataFrame :=
  normalize_price_movements df

/-- The column names of the OHLCV input contract (§6 of the spec; `'Adj
Close'` is the pandas spelling of AdjClose). -/
def inputCols : List String :=
  ["Open", "High", "Low", "Close", "Volume", "Adj Close"]

/-- An input table per the OHLCV contract: only input column names, no
duplicate columns. -/
def InputTable (df : DataFrame) : Prop :=
  (∀ p ∈ df, p.1 ∈ inputCols) ∧ (df.map Prod.fst).Nodup

/-- A table with a numeric `Close` but neither `High` nor `Low`. -/
def df6 : DataFrame := [("Close", [some 1, some 2, some 4])]

/-- A minimal OHLCV table: one numeric `Close` column with two rows. -/
def df7 : DataFrame := [("Close", [some 1, some 2])]

/-- A second minimal table, for the witness. -/
def df7b : DataFrame := [("Close", [some 5])]

/-- A table whose `Close` has range `[1, 3]`. -/
def df8 : DataFrame := [("Close", [some 1, some 3, some 2])]

lemma foldl_min_le_init (xs : List ℝ) (x : ℝ) : xs.foldl min x ≤ x := by
  induction xs generalizing x with
  | nil => exact le_rfl
  | cons y ys ih => exact le_trans (ih (min x y)) (min_le_left x y)

lemma foldl_min_le_mem (xs : List ℝ) (x y : ℝ) (hy : y ∈ xs) :
    xs.foldl min x ≤ y := by
  induction xs generalizing x with
  | nil => cases hy
  | cons z zs ih =>
    rcases List.mem_cons.mp hy with h | h
    · subst h; exact le_trans (foldl_min_le_init zs (min x y)) (min_le_right x y)
    · exact ih (min x z) h

lemma foldl_min_mem (xs : List ℝ) (x : ℝ) : xs.foldl min x ∈ x :: xs := by
  induction xs generalizing x with
  | nil => simp
  | cons y ys ih =>
    have h := ih (min x y)
    rcases List.mem_cons.mp h with h | h
    · rcases min_choice x y with hc | hc <;> rw [List.foldl_cons, h, hc] <;> simp
    · simp [List.foldl_cons, List.mem_cons.mpr (Or.inr (List.mem_cons.mpr (Or.inr h)))]

lemma foldl_max_init_le (xs : List ℝ) (x : ℝ) : x ≤ xs.foldl max x := by
  induction xs generalizing x with
  | nil => exact le_rfl
  | cons y ys ih => exact le_trans (le_max_left x y) (ih (max x y))

lemma foldl_max_mem_le (xs : List ℝ) (x y : ℝ) (hy : y ∈ xs) :
    y ≤ xs.foldl max x := by
  induction xs generalizing x with
  | nil => cases hy
  | cons z zs ih =>
    rcases List.mem_cons.mp hy with h | h
    · subst h; exact le_trans (le_max_right x y) (foldl_max_init_le zs (max x y))
    · exact ih (max x z) h

lemma foldl_max_mem (xs : List ℝ) (x : ℝ) : xs.foldl max x ∈ x :: xs := by
  induction xs generalizing x with
  | nil => simp
  | cons y ys ih =>
    have h := ih (max x y)
    rcases List.mem_cons.mp h with h | h
    · rcases max_choice x y with hc | hc <;> rw [List.foldl_cons, h, hc] <;> simp
    · simp [List.foldl_cons, List.mem_cons.mpr (Or.inr (List.mem_cons.mpr (Or.inr h)))]

lemma npMin_le (l : List ℝ) (v : ℝ) (hv : v ∈ l) : npMin l ≤ v := by
  cases l with
  | nil => cases hv
  | cons x xs =>
    rcases List.mem_cons.mp hv with h | h
    · exact h ▸ foldl_min_le_init xs x
    · exact foldl_min_le_mem xs x v h

lemma le_npMax (l : List ℝ) (v : ℝ) (hv : v ∈ l) : v ≤ npMax l := by
  cases l with
  | nil => cases hv
  | cons x xs =>
    rcases List.mem_cons.mp hv with h | h
    · exact h ▸ foldl_max_init_le xs x
    · exact foldl_max_mem_le xs x v h

lemma npMin_mem (l : List ℝ) (hl : l ≠ []) : npMin l ∈ l := by
  cases l with
  | nil => exact absurd rfl hl
  | cons x xs => exact foldl_min_mem xs x

lemma npMax_mem (l : List ℝ) (hl : l ≠ []) : npMax l ∈ l := by
  cases l with
  | nil => exact absurd rfl hl
  | cons x xs => exact foldl_max_mem xs x

lemma real_sqrt_eval (x q : ℝ) (hq : 0 ≤ q) (h : x = q ^ 2) :
    Real.sqrt x = q := by rw [h, Real.sqrt_sq hq]

lemma w4_dropna : dropna w4 = [-2, -1, 0, 1, 2, 0, 0, 0, 0, 0] := rfl

lemma w4_mean : npMean [(-2 : ℝ), -1, 0, 1, 2, 0, 0, 0, 0, 0] = 0 := by
  simp only [npMean, List.sum_cons, List.sum_nil, List.length_cons,
    List.length_nil]
  norm_num

lemma w4_std : npStd [(-2 : ℝ), -1, 0, 1, 2, 0, 0, 0, 0, 0] = 1 := by
  simp only [npStd, w4_mean]
  refine real_sqrt_eval _ _ (by norm_num) ?_
  simp only [List.map_cons, List.map_nil, List.sum_cons, List.sum_nil,
    List.length_cons, List.length_nil]
  norm_num

lemma w4_z : zRaw w4 = [2, 1, 0, 1, 2, 0, 0, 0, 0, 0] := by
  simp only [zRaw, w4_dropna, w4_mean, w4_std]
  norm_num [abs_of_nonneg, abs_of_nonpos]

lemma w4_zmin : npMin (zRaw w4) = 0 := by
  rw [w4_z]
  simp only [npMin, List.foldl_cons, List.foldl_nil]
  norm_num [min_def]

lemma w4_zmax : npMax (zRaw w4) = 2 := by
  rw [w4_z]
  simp only [npMax, List.foldl_cons, List.foldl_nil]
  norm_num [max_def]

lemma npStd_nonneg (xs : List ℝ) : 0 ≤ npStd xs := Real.sqrt_nonneg _

lemma s5_mean : npMean [(0 : ℝ), 1] = 1 / 2 := by
  simp only [npMean, List.sum_cons, List.sum_nil, List.length_cons,
    List.length_nil]
  norm_num

lemma s5_std : npStd [(0 : ℝ), 1] = 1 / 2 := by
  simp only [npStd, s5_mean]
  refine real_sqrt_eval _ _ (by norm_num) ?_
  simp only [List.map_cons, List.map_nil, List.sum_cons, List.sum_nil,
    List.length_cons, List.length_nil]
  norm_num

lemma s5_sampleStd : sampleStd [(0 : ℝ), 1] = Real.sqrt (1 / 2) := by
  simp only [sampleStd, s5_mean]
  congr 1
  simp only [List.map_cons, List.map_nil, List.sum_cons, List.sum_nil,
    List.length_cons, List.length_nil]
  norm_num

lemma dropna_affineMap (a b : ℝ) (s : List (Option ℝ)) :
    dropna (affineMap a b s) = (dropna s).map (fun x => a * x + b) := by
  induction s with
  | nil => rfl
  | cons o rest ih =>
    cases o <;> simp [dropna, affineMap, List.filterMap_cons] at ih ⊢ <;>
      exact ih

lemma naIndexAux_affineMap (a b : ℝ) (s : List (Option ℝ)) (i : ℕ) :
    naIndexAux i (affineMap a b s) = naIndexAux i s := by
  induction s generalizing i with
  | nil => rfl
  | cons o rest ih =>
    cases o <;> simp [affineMap, naIndexAux] at ih ⊢ <;> exact ih _

lemma naIndex_affineMap (a b : ℝ) (s : List (Option ℝ)) :
    naIndex (affineMap a b s) = naIndex s := naIndexAux_affineMap a b s 0

lemma sum_affine (a b : ℝ) (xs : List ℝ) :
    (xs.map (fun x => a * x + b)).sum = a * xs.sum + xs.length * b := by
  induction xs with
  | nil => simp
  | cons x rest ih => simp [ih]; ring

lemma npStd_nil : npStd [] = 0 := by simp [npStd]

lemma npMean_affine (a b : ℝ) (xs : List ℝ) (hxs : xs ≠ []) :
    npMean (xs.map (fun x => a * x + b)) = a * npMean xs + b := by
  have hn : (xs.length : ℝ) ≠ 0 := by
    have h0 : xs.length ≠ 0 := fun h => hxs (List.length_eq_zero.mp h)
    exact_mod_cast h0
  simp only [npMean, List.length_map, sum_affine]
  field_simp
  ring

lemma npStd_affine (a b : ℝ) (xs : List ℝ) :
    npStd (xs.map (fun x => a * x + b)) = |a| * npStd xs := by
  cases xs with
  | nil => simp [npStd]
  | cons y ys =>
    set xs := y :: ys with hxs
    have hne : xs ≠ [] := by simp [hxs]
    have hμ := npMean_affine a b xs hne
    have hS : ((xs.map (fun x => a * x + b)).map
        (fun v => (v - (a * npMean xs + b)) ^ 2)).sum =
        a ^ 2 * (xs.map (fun x => (x - npMean xs) ^ 2)).sum := by
      rw [List.map_map]
      rw [show ((fun v => (v - (a * npMean xs + b)) ^ 2) ∘ fun x => a * x + b)
            = fun x => a ^ 2 * (x - npMean xs) ^ 2 by
        funext x; simp only [Function.comp]; ring]
      exact List.sum_map_mul_left xs (fun x => (x - npMean xs) ^ 2) (a ^ 2)
    simp only [npStd, hμ, hS, List.length_map]
    rw [mul_div_assoc, Real.sqrt_mul (sq_nonneg a), Real.sqrt_sq_eq_abs]

lemma dropna_ne_nil_of_std_pos (s : List (Option ℝ))
    (h : 0 < npStd (dropna s)) : dropna s ≠ [] := by
  intro hnil
  rw [hnil, npStd_nil] at h
  exact lt_irrefl 0 h

lemma zRaw_affineMap (a b : ℝ) (s : List (Option ℝ)) (ha : a ≠ 0) :
    zRaw (affineMap a b s) = zRaw s := by
  by_cases hstd : 0 < npStd (dropna s)
  · have hne := dropna_ne_nil_of_std_pos s hstd
    simp only [zRaw, dropna_affineMap, npStd_affine, npMean_affine a b _ hne,
      List.map_map]
    refine List.map_congr_left (fun x _ => ?_)
    simp only [Function.comp]
    rw [show a * x + b - (a * npMean (dropna s) + b)
          = a * (x - npMean (dropna s)) by ring, abs_mul]
    rw [mul_div_mul_left _ _ (abs_ne_zero.mpr ha)]
  · have h0 : npStd (dropna s) = 0 :=
      le_antisymm (not_lt.mp hstd) (npStd_nonneg _)
    simp only [zRaw, dropna_affineMap, npStd_affine, h0, mul_zero,
      List.map_map]
    refine List.map_congr_left (fun x _ => ?_)
    simp [Function.comp]

lemma zScoresOrZeros_affineMap (a b : ℝ) (s : List (Option ℝ)) (ha : a ≠ 0) :
    zScoresOrZeros (affineMap a b s) = zScoresOrZeros s := by
  have habs : 0 < |a| := abs_pos.mpr ha
  simp only [zScoresOrZeros]
  by_cases h : 0 < npStd (dropna s)
  · have h' : 0 < npStd (dropna (affineMap a b s)) := by
      rw [dropna_affineMap, npStd_affine]
      exact mul_pos habs h
    rw [if_pos h, if_pos h']
    have hz := zRaw_affineMap a b s ha
    simpa only [zRaw] using hz
  · have h0 : npStd (dropna s) = 0 :=
      le_antisymm (not_lt.mp h) (npStd_nonneg _)
    have h0' : npStd (dropna (affineMap a b s)) = 0 := by
      rw [dropna_affineMap, npStd_affine, h0, mul_zero]
    rw [if_neg h, if_neg (by rw [h0']; exact lt_irrefl 0)]
    rw [dropna_affineMap, List.map_map]
    rfl

lemma round_nonneg (y : ℝ) (hy : 0 ≤ y) : 0 ≤ round y := by
  rw [round_eq]
  have h := Int.floor_mono (show (1 / 2 : ℝ) ≤ y + 1 / 2 by linarith)
  have h0 : ⌊(1 / 2 : ℝ)⌋ = 0 := by norm_num
  omega

lemma roundHalfToEven_nonneg (x : ℝ) (hx : 0 ≤ x) : 0 ≤ roundHalfToEven x := by
  rw [roundHalfToEven]
  split_ifs
  · have := round_nonneg (x / 2) (by linarith)
    omega
  · exact round_nonneg x hx

lemma round4_nonneg (x : ℝ) (hx : 0 ≤ x) : 0 ≤ round4 x := by
  rw [round4]
  have h := roundHalfToEven_nonneg (x * 10000) (by linarith)
  positivity

lemma round4_of_mul_eq_int (q : ℝ) (m : ℤ) (h : q * 10000 = (m : ℝ)) :
    round4 q = q := by
  have hfr : Int.fract (q * 10000) = 0 := by rw [h, Int.fract_intCast]
  rw [round4, roundHalfToEven, if_neg (by rw [hfr]; norm_num), h,
    round_intCast]
  exact (div_eq_iff (by norm_num)).mpr h.symm

lemma round4_zero : round4 0 = 0 :=
  round4_of_mul_eq_int 0 0 (by norm_num)

lemma sqrt2_mul_bounds :
    (14142 : ℝ) < Real.sqrt 2 * 10000 ∧ Real.sqrt 2 * 10000 < 14142 + 1 / 2 := by
  have hlo : (14142 / 10000 : ℝ) < Real.sqrt 2 := by
    rw [show (14142 / 10000 : ℝ) = Real.sqrt ((14142 / 10000) ^ 2) by
      rw [Real.sqrt_sq (by norm_num)]]
    exact Real.sqrt_lt_sqrt (by positivity) (by norm_num)
  have hhi : Real.sqrt 2 < 141425 / 100000 := by
    rw [show (141425 / 100000 : ℝ) = Real.sqrt ((141425 / 100000) ^ 2) by
      rw [Real.sqrt_sq (by norm_num)]]
    exact Real.sqrt_lt_sqrt (by norm_num) (by norm_num)
  constructor <;> nlinarith

lemma round4_sqrt2 : round4 (Real.sqrt 2) = 7071 / 5000 := by
  obtain ⟨h1, h2⟩ := sqrt2_mul_bounds
  have hfloor : ⌊Real.sqrt 2 * 10000⌋ = 14142 := by
    rw [Int.floor_eq_iff]
    constructor <;> push_cast <;> linarith
  have hfract : Int.fract (Real.sqrt 2 * 10000) ≠ 1 / 2 := by
    rw [Int.fract, hfloor]
    push_cast
    intro hc
    linarith
  have hround : round (Real.sqrt 2 * 10000) = 14142 := by
    rw [round_eq, Int.floor_eq_iff]
    constructor <;> push_cast <;> linarith
  rw [round4, roundHalfToEven, if_neg hfract, hround]
  norm_num

lemma dedup_replicate {α : Type} [DecidableEq α] (n : ℕ) (hn : n ≠ 0)
    (a : α) : (List.replicate n a).dedup = [a] := by
  induction n with
  | zero => exact absurd rfl hn
  | succ n ih =>
    cases Nat.eq_zero_or_pos n with
    | inl h0 => subst h0; simp
    | inr hpos =>
      have hn' : n ≠ 0 := Nat.pos_iff_ne_zero.mp hpos
      rw [List.replicate_succ,
        List.dedup_cons_of_mem (List.mem_replicate.mpr ⟨hn', rfl⟩)]
      exact ih hn'

lemma filter_replicate_true {α : Type} (p : α → Bool) (a : α)
    (hp : p a = true) (n : ℕ) :
    (List.replicate n a).filter p = List.replicate n a := by
  induction n with
  | zero => rfl
  | succ n ih => simp [List.replicate_succ, List.filter_cons, hp, ih]

lemma npMean_replicate (n : ℕ) (hn : n ≠ 0) (x : ℝ) :
    npMean (List.replicate n x) = x := by
  have hnR : (n : ℝ) ≠ 0 := Nat.cast_ne_zero.mpr hn
  simp only [npMean, List.sum_replicate, List.length_replicate,
    nsmul_eq_mul]
  field_simp

lemma sampleStd_replicate (n : ℕ) (hn : n ≠ 0) (x : ℝ) :
    sampleStd (List.replicate n x) = 0 := by
  simp only [sampleStd, npMean_replicate n hn, List.map_replicate,
    List.sum_replicate, sub_self]
  norm_num

lemma aggregate_replicate (a : Article) (n : ℕ) (hn : 2 ≤ n) :
    aggregate_daily_sentiment (List.replicate n a) =
      [⟨a.symbol, a.date, round4 a.sentiment_score, some 0, n, n,
        min ((n : ℝ) / 10) 1⟩] := by
  have hn0 : n ≠ 0 := by omega
  have hfilter : List.filter
      (fun x => x.symbol == a.symbol && x.date == a.date)
      (List.replicate n a) = List.replicate n a :=
    filter_replicate_true _ a (by simp) n
  simp only [aggregate_daily_sentiment, groupKeys, groupScores,
    List.map_replicate, dedup_replicate n hn0, List.map_cons, List.map_nil,
    hfilter, List.length_replicate, npMean_replicate n hn0, pandasStd,
    sampleStd_replicate n hn0]
  rw [if_pos hn]
  simp [round4_zero]

lemma aggregate_single (a : Article) :
    aggregate_daily_sentiment [a] =
      [⟨a.symbol, a.date, round4 a.sentiment_score, none, 1, 1, 1 / 20⟩] := by
  have hpred : (fun x => x.symbol == a.symbol && x.date == a.date) a
      = true := by simp
  simp only [aggregate_daily_sentiment, groupKeys, groupScores,
    List.map_cons, List.map_nil, List.dedup_nil,
    List.dedup_cons_of_not_mem (List.not_mem_nil _), List.filter_cons,
    hpred, if_pos, List.filter_nil, List.length_cons, List.length_nil,
    npMean, List.sum_cons, List.sum_nil, pandasStd]
  norm_num

lemma round4_half : round4 (1 / 2) = 1 / 2 :=
  round4_of_mul_eq_int (1 / 2) 5000 (by norm_num)

lemma npMean_c1 : npMean [(-1 : ℝ), 1] = 0 := by
  simp only [npMean, List.sum_cons, List.sum_nil, List.length_cons,
    List.length_nil]
  norm_num

lemma sampleStd_c1 : sampleStd [(-1 : ℝ), 1] = Real.sqrt 2 := by
  simp only [sampleStd, npMean_c1]
  congr 1
  simp only [List.map_cons, List.map_nil, List.sum_cons, List.sum_nil,
    List.length_cons, List.length_nil]
  norm_num

lemma aggregate_c1 : aggregate_daily_sentiment c1Articles =
    [⟨"AAPL", "2024-01-02", 0, some (7071 / 5000), 2, 2,
      -(2071 / 25000)⟩] := by
  have hkeys : groupKeys c1Articles = [("AAPL", "2024-01-02")] := by
    simp [groupKeys, c1Articles, List.dedup_cons_of_mem]
  have hscores : groupScores c1Articles ("AAPL", "2024-01-02") =
      [-1, 1] := by
    simp [groupScores, c1Articles]
  have hstd : pandasStd [(-1 : ℝ), 1] = some (Real.sqrt 2) := by
    rw [pandasStd, if_pos (by simp), sampleStd_c1]
  simp only [aggregate_daily_sentiment, hkeys, List.map_cons, List.map_nil,
    hscores, npMean_c1, hstd, round4_zero]
  norm_num [min_def, round4_sqrt2]

lemma npMean_c3 : npMean [(1 / 5 : ℝ), 2 / 5, 3 / 5] = 2 / 5 := by
  simp only [npMean, List.sum_cons, List.sum_nil, List.length_cons,
    List.length_nil]
  norm_num

lemma sampleStd_c3 : sampleStd [(1 / 5 : ℝ), 2 / 5, 3 / 5] = 1 / 5 := by
  simp only [sampleStd, npMean_c3]
  refine real_sqrt_eval _ _ (by norm_num) ?_
  simp only [List.map_cons, List.map_nil, List.sum_cons, List.sum_nil,
    List.length_cons, List.length_nil]
  norm_num

lemma round4_fifth : round4 (1 / 5) = 1 / 5 :=
  round4_of_mul_eq_int _ 2000 (by norm_num)

lemma round4_twoFifths : round4 (2 / 5) = 2 / 5 :=
  round4_of_mul_eq_int _ 4000 (by norm_num)

lemma aggregate_c3 : aggregate_daily_sentiment c3Articles =
    [⟨"NVDA", "2024-01-05", 2 / 5, some (1 / 5), 3, 3, 6 / 25⟩] := by
  have hkeys : groupKeys c3Articles = [("NVDA", "2024-01-05")] := by
    simp [groupKeys, c3Articles, List.dedup_cons_of_mem]
  have hscores : groupScores c3Articles ("NVDA", "2024-01-05") =
      [1 / 5, 2 / 5, 3 / 5] := by
    simp [groupScores, c3Articles]
  have hstd : pandasStd [(1 / 5 : ℝ), 2 / 5, 3 / 5] = some (1 / 5) := by
    rw [pandasStd, if_pos (by simp), sampleStd_c3]
  simp only [aggregate_daily_sentiment, hkeys, List.map_cons, List.map_nil,
    hscores, npMean_c3, hstd, round4_twoFifths]
  norm_num [min_def, round4_fifth]

lemma getCol_setCol_self (df : DataFrame) (c : String) (v : Col) :
    getCol (setCol df c v) c = some v := by
  induction df with
  | nil => simp [setCol, getCol]
  | cons p rest ih =>
    obtain ⟨n, w⟩ := p
    by_cases h : n == c
    · simp [setCol, h, getCol]
    · simp only [setCol, h, Bool.false_eq_true, if_false]
      simpa [getCol, List.find?, h] using ih

lemma getCol_setCol_ne (df : DataFrame) (c c' : String) (v : Col)
    (h : c' ≠ c) : getCol (setCol df c v) c' = getCol df c' := by
  induction df with
  | nil =>
    have hcc : (c == c') = false :=
      beq_eq_false_iff_ne.mpr (fun hc => h hc.symm)
    simp [setCol, getCol, List.find?, hcc]
  | cons p rest ih =>
    obtain ⟨n, w⟩ := p
    by_cases hn : n == c
    · have hnc : n = c := by simpa using hn
      have hnc' : (n == c') = false := by
        subst hnc
        simpa using fun hc => h hc.symm
      simp [setCol, hn, getCol, List.find?, hnc']
    · by_cases hn' : n == c'
      · simp [setCol, hn, getCol, List.find?, hn']
      · simp only [setCol, hn, Bool.false_eq_true, if_false]
        simpa [getCol, List.find?, hn'] using ih

lemma hasCol_setCol_self (df : DataFrame) (c : String) (v : Col) :
    hasCol (setCol df c v) c = true := by
  simp [hasCol, getCol_setCol_self]

lemma hasCol_setCol_ne (df : DataFrame) (c c' : String) (v : Col)
    (h : c' ≠ c) : hasCol (setCol df c v) c' = hasCol df c' := by
  simp [hasCol, getCol_setCol_ne df c c' v h]

lemma getCol_fillAllCols (df : DataFrame) (c : String) :
    getCol (fillAllCols df) c =
      (getCol df c).map (fun w => bfillCol (ffillFrom none w)) := by
  induction df with
  | nil => simp [fillAllCols, getCol]
  | cons p rest ih =>
    obtain ⟨n, w⟩ := p
    by_cases hn : n == c
    · simp [fillAllCols, getCol, List.find?, hn]
    · simpa [fillAllCols, getCol, List.find?, hn] using ih

lemma hasCol_fillAllCols (df : DataFrame) (c : String) :
    hasCol (fillAllCols df) c = hasCol df c := by
  simp only [hasCol, getCol_fillAllCols]
  cases getCol df c <;> simp

lemma getCol_eq_none_of_inputTable (df : DataFrame) (h : InputTable df)
    (c : String) (hc : c ∉ inputCols) : getCol df c = none := by
  have hfind : df.find? (fun p => p.1 == c) = none := by
    rw [List.find?_eq_none]
    intro p hp hpc
    exact hc ((by simpa using hpc : p.1 = c) ▸ h.1 p hp)
  simp [getCol, hfind]

lemma getCol_npmPriceFeatures_other (df : DataFrame) (close : Col)
    (c : String) (h1 : c ≠ "Returns") (h2 : c ≠ "NormalizedPrice")
    (h3 : c ≠ "MA_5") (h4 : c ≠ "MA_20") (h5 : c ≠ "MA_50") :
    getCol (npmPriceFeatures df close) c = getCol df c := by
  simp only [npmPriceFeatures]
  rw [getCol_setCol_ne _ _ _ _ h5, getCol_setCol_ne _ _ _ _ h4,
    getCol_setCol_ne _ _ _ _ h3]
  cases hmn : colMin close with
  | none =>
    cases hmx : colMax close <;> exact getCol_setCol_ne _ _ _ _ h1
  | some mn =>
    cases hmx : colMax close with
    | none => exact getCol_setCol_ne _ _ _ _ h1
    | some mx =>
      dsimp only
      by_cases hlt : mn < mx
      · rw [if_pos hlt, getCol_setCol_ne _ _ _ _ h2,
          getCol_setCol_ne _ _ _ _ h1]
      · rw [if_neg hlt, getCol_setCol_ne _ _ _ _ h1]

lemma getCol_npmPriceFeatures_returns (df : DataFrame) (close : Col) :
    getCol (npmPriceFeatures df close) "Returns" =
      some (pctChange close) := by
  simp only [npmPriceFeatures]
  rw [getCol_setCol_ne _ _ _ _ (by decide : ("Returns" : String) ≠ "MA_50"),
    getCol_setCol_ne _ _ _ _ (by decide : ("Returns" : String) ≠ "MA_20"),
    getCol_setCol_ne _ _ _ _ (by decide : ("Returns" : String) ≠ "MA_5")]
  cases hmn : colMin close with
  | none =>
    cases hmx : colMax close <;> exact getCol_setCol_self _ _ _
  | some mn =>
    cases hmx : colMax close with
    | none => exact getCol_setCol_self _ _ _
    | some mx =>
      dsimp only
      by_cases hlt : mn < mx
      · rw [if_pos hlt,
          getCol_setCol_ne _ _ _ _
            (by decide : ("Returns" : String) ≠ "NormalizedPrice"),
          getCol_setCol_self]
      · rw [if_neg hlt, getCol_setCol_self]

lemma getCol_npmPriceFeatures_np_present (df : DataFrame) (close : Col)
    (mn mx : ℝ) (hmn : colMin close = some mn) (hmx : colMax close = some mx)
    (hlt : mn < mx) :
    getCol (npmPriceFeatures df close) "NormalizedPrice" =
      some (close.map (Option.map (fun x => (x - mn) / (mx - mn)))) := by
  simp only [npmPriceFeatures, hmn, hmx]
  rw [getCol_setCol_ne _ _ _ _
      (by decide : ("NormalizedPrice" : String) ≠ "MA_50"),
    getCol_setCol_ne _ _ _ _
      (by decide : ("NormalizedPrice" : String) ≠ "MA_20"),
    getCol_setCol_ne _ _ _ _
      (by decide : ("NormalizedPrice" : String) ≠ "MA_5"),
    if_pos hlt, getCol_setCol_self]

lemma getCol_npmPriceFeatures_np_absent (df : DataFrame) (close : Col)
    (hdf : getCol df "NormalizedPrice" = none)
    (hdeg : ∀ mn mx, colMin close = some mn → colMax close = some mx →
      ¬ mn < mx) :
    getCol (npmPriceFeatures df close) "NormalizedPrice" = none := by
  simp only [npmPriceFeatures]
  rw [getCol_setCol_ne _ _ _ _
      (by decide : ("NormalizedPrice" : String) ≠ "MA_50"),
    getCol_setCol_ne _ _ _ _
      (by decide : ("NormalizedPrice" : String) ≠ "MA_20"),
    getCol_setCol_ne _ _ _ _
      (by decide : ("NormalizedPrice" : String) ≠ "MA_5")]
  have hlast : getCol (setCol df "Returns" (pctChange close))
      "NormalizedPrice" = none := by
    rw [getCol_setCol_ne _ _ _ _
      (by decide : ("NormalizedPrice" : String) ≠ "Returns")]
    exact hdf
  cases hmn : colMin close with
  | none => cases hmx : colMax close <;> exact hlast
  | some mn =>
    cases hmx : colMax close with
    | none => exact hlast
    | some mx => dsimp only; rw [if_neg (hdeg mn mx hmn hmx)]; exact hlast

lemma npmVolatilityFeatures_no_high_low (df : DataFrame) (close : Col)
    (h : getCol df "High" = none ∨ getCol df "Low" = none) :
    npmVolatilityFeatures df close = df := by
  cases hhi : getCol df "High" with
  | none =>
    cases hlo : getCol df "Low" <;> simp [npmVolatilityFeatures, hhi, hlo]
  | some hi =>
    cases hlo : getCol df "Low" with
    | none => simp [npmVolatilityFeatures, hhi, hlo]
    | some lo =>
      rcases h with h | h
      · rw [hhi] at h; exact absurd h (by simp)
      · rw [hlo] at h; exact absurd h (by simp)

lemma getCol_npmVolatilityFeatures_other (df : DataFrame) (close : Col)
    (c : String) (h1 : c ≠ "Volatility") (h2 : c ≠ "ReturnsOutlierScore")
    (h3 : c ≠ "VolatilityOutlierScore") :
    getCol (npmVolatilityFeatures df close) c = getCol df c := by
  cases hhi : getCol df "High" with
  | none =>
    cases hlo : getCol df "Low" <;> simp [npmVolatilityFeatures, hhi, hlo]
  | some hi =>
    cases hlo : getCol df "Low" with
    | none => simp [npmVolatilityFeatures, hhi, hlo]
    | some lo =>
      simp only [npmVolatilityFeatures, hhi, hlo]
      split_ifs with hret hvol hvol
      · rw [getCol_setCol_ne _ _ _ _ h3, getCol_setCol_ne _ _ _ _ h2,
          getCol_setCol_ne _ _ _ _ h1]
      · rw [getCol_setCol_ne _ _ _ _ h2, getCol_setCol_ne _ _ _ _ h1]
      · rw [getCol_setCol_ne _ _ _ _ h3, getCol_setCol_ne _ _ _ _ h1]
      · rw [getCol_setCol_ne _ _ _ _ h1]

lemma getCol_npmVolatilityFeatures_ros (df : DataFrame) (close : Col)
    (hi lo : Col) (hhi : getCol df "High" = some hi)
    (hlo : getCol df "Low" = some lo)
    (hret : hasCol df "Returns" = true) :
    getCol (npmVolatilityFeatures df close) "ReturnsOutlierScore" =
      some (scatterScores close.length
        (calculate_outlier_score (pctChange close))) := by
  simp only [npmVolatilityFeatures, hhi, hlo]
  have hret6 : hasCol (setCol df "Volatility" (subCols hi lo)) "Returns"
      = true := by
    rw [hasCol_setCol_ne _ _ _ _
      (by decide : ("Returns" : String) ≠ "Volatility")]
    exact hret
  rw [if_pos hret6]
  have hvol7 : hasCol (setCol (setCol df "Volatility" (subCols hi lo))
      "ReturnsOutlierScore" (scatterScores close.length
        (calculate_outlier_score (pctChange close)))) "Volatility"
      = true := by
    rw [hasCol_setCol_ne _ _ _ _
      (by decide : ("Volatility" : String) ≠ "ReturnsOutlierScore")]
    exact hasCol_setCol_self _ _ _
  rw [if_pos hvol7]
  rw [getCol_setCol_ne _ _ _ _
      (by decide : ("ReturnsOutlierScore" : String)
        ≠ "VolatilityOutlierScore"),
    getCol_setCol_self]

lemma hasCol_npm_returns (df : DataFrame) (close : Col)
    (hc : getCol df "Close" = some close) :
    hasCol (normalize_price_movements df) "Returns" = true := by
  simp only [normalize_price_movements, hc]
  rw [hasCol_fillAllCols, hasCol,
    getCol_npmVolatilityFeatures_other _ _ _ (by decide) (by decide)
      (by decide),
    getCol_npmPriceFeatures_returns]
  rfl

lemma mem_dropna (c : Col) (v : ℝ) : v ∈ dropna c ↔ some v ∈ c := by
  constructor
  · intro h
    obtain ⟨o, ho, he⟩ := List.mem_filterMap.mp h
    exact he ▸ ho
  · intro h
    exact List.mem_filterMap.mpr ⟨some v, h, rfl⟩

lemma dropna_map (f : ℝ → ℝ) (c : Col) :
    dropna (c.map (Option.map f)) = (dropna c).map f := by
  induction c with
  | nil => rfl
  | cons o rest ih =>
    cases o <;> simp [dropna, List.filterMap_cons] at ih ⊢ <;> exact ih

lemma colMin_spec (c : Col) (m : ℝ) (h : colMin c = some m) :
    m ∈ dropna c ∧ ∀ v ∈ dropna c, m ≤ v := by
  cases hd : dropna c with
  | nil => simp only [colMin, hd] at h; cases h
  | cons x xs =>
    simp only [colMin, hd] at h
    have hm : xs.foldl min x = m := Option.some.inj h
    constructor
    · rw [← hm]
      exact foldl_min_mem xs x
    · intro v hv
      rw [← hm]
      exact npMin_le (x :: xs) v hv

lemma colMin_eq_of (c : Col) (m : ℝ) (hm : m ∈ dropna c)
    (hle : ∀ v ∈ dropna c, m ≤ v) : colMin c = some m := by
  cases hd : dropna c with
  | nil => rw [hd] at hm; cases hm
  | cons x xs =>
    simp only [colMin, hd]
    congr 1
    refine le_antisymm (npMin_le (x :: xs) m (by rw [hd] at hm; exact hm)) ?_
    refine hle _ ?_
    rw [hd]
    exact foldl_min_mem xs x

lemma colMax_spec (c : Col) (m : ℝ) (h : colMax c = some m) :
    m ∈ dropna c ∧ ∀ v ∈ dropna c, v ≤ m := by
  cases hd : dropna c with
  | nil => simp only [colMax, hd] at h; cases h
  | cons x xs =>
    simp only [colMax, hd] at h
    have hm : xs.foldl max x = m := Option.some.inj h
    constructor
    · rw [← hm]
      exact foldl_max_mem xs x
    · intro v hv
      rw [← hm]
      exact le_npMax (x :: xs) v hv

lemma colMax_eq_of (c : Col) (m : ℝ) (hm : m ∈ dropna c)
    (hge : ∀ v ∈ dropna c, v ≤ m) : colMax c = some m := by
  cases hd : dropna c with
  | nil => rw [hd] at hm; cases hm
  | cons x xs =>
    simp only [colMax, hd]
    congr 1
    refine le_antisymm ?_ (le_npMax (x :: xs) m (by rw [hd] at hm; exact hm))
    refine hge _ ?_
    rw [hd]
    exact foldl_max_mem xs x

lemma mem_ffillFrom_of_mem (c : Col) (acc : Option ℝ) (x : ℝ)
    (h : some x ∈ c) : some x ∈ ffillFrom acc c := by
  induction c generalizing acc with
  | nil => cases h
  | cons o rest ih =>
    cases o with
    | none =>
      rcases List.mem_cons.mp h with h | h
      · cases h
      · exact List.mem_cons.mpr (Or.inr (ih acc h))
    | some y =>
      rcases List.mem_cons.mp h with h | h
      · exact List.mem_cons.mpr (Or.inl h)
      · exact List.mem_cons.mpr (Or.inr (ih (some y) h))

lemma eq_or_mem_of_mem_ffillFrom (c : Col) (acc : Option ℝ) (v : ℝ)
    (h : some v ∈ ffillFrom acc c) : acc = some v ∨ some v ∈ c := by
  induction c generalizing acc with
  | nil => cases h
  | cons o rest ih =>
    cases o with
    | none =>
      rcases List.mem_cons.mp h with h | h
      · exact Or.inl h.symm
      · rcases ih acc h with h | h
        · exact Or.inl h
        · exact Or.inr (List.mem_cons.mpr (Or.inr h))
    | some y =>
      rcases List.mem_cons.mp h with h | h
      · exact Or.inr (List.mem_cons.mpr (Or.inl h))
      · rcases ih (some y) h with h | h
        · exact Or.inr (List.mem_cons.mpr (Or.inl h.symm))
        · exact Or.inr (List.mem_cons.mpr (Or.inr h))

lemma mem_fill_of_mem (c : Col) (x : ℝ) (h : some x ∈ c) :
    some x ∈ bfillCol (ffillFrom none c) := by
  rw [bfillCol, List.mem_reverse]
  refine mem_ffillFrom_of_mem _ none x ?_
  rw [List.mem_reverse]
  exact mem_ffillFrom_of_mem c none x h

lemma mem_of_mem_fill (c : Col) (v : ℝ)
    (h : some v ∈ bfillCol (ffillFrom none c)) : some v ∈ c := by
  rw [bfillCol, List.mem_reverse] at h
  rcases eq_or_mem_of_mem_ffillFrom _ _ _ h with h | h
  · cases h
  · rw [List.mem_reverse] at h
    rcases eq_or_mem_of_mem_ffillFrom _ _ _ h with h | h
    · cases h
    · exact h

/-- C9: for every input series that is empty after removing missing values,
`calculate_outlier_score` returns an empty score series (the embedded
function is total, so no error is raised). -/
theorem calculate_outlier_score_empty (s : List (Option ℝ))
    (h : dropna s = []) : calculate_outlier_score s = [] := by
  simp [calculate_outlier_score, h]

/-- C4: `calculate_outlier_score` drops missing values and computes absolute
z-scores over the rest; when the standard deviation is positive and the
z-scores are not all equal (`min_z < max_z`) it returns
`(z − z_min)/(z_max − z_min)`, every output value lying in `[0, 1]`; when
`max_z = min_z` it returns the raw z-scores unscaled; when the standard
deviation is `0` it returns all zeros. -/
theorem calculate_outlier_score_cases (s : List (Option ℝ)) :
    (0 < npStd (dropna s) → npMin (zRaw s) < npMax (zRaw s) →
      calculate_outlier_score s =
        (naIndex s).zip ((zRaw s).map (fun zi =>
          (zi - npMin (zRaw s)) / (npMax (zRaw s) - npMin (zRaw s)))) ∧
      ∀ p ∈ calculate_outlier_score s, 0 ≤ p.2 ∧ p.2 ≤ 1) ∧
    (0 < npStd (dropna s) → npMax (zRaw s) = npMin (zRaw s) →
      calculate_outlier_score s = (naIndex s).zip (zRaw s)) ∧
    (npStd (dropna s) = 0 → ∀ p ∈ calculate_outlier_score s, p.2 = 0) := by
  refine ⟨fun hstd hz => ?_, fun hstd hz => ?_, fun hstd => ?_⟩
  · have heq : calculate_outlier_score s =
        (naIndex s).zip ((zRaw s).map (fun zi =>
          (zi - npMin (zRaw s)) / (npMax (zRaw s) - npMin (zRaw s)))) := by
      simp only [calculate_outlier_score]
      rw [if_pos hstd]
      rw [show (dropna s).map (fun x => |x - npMean (dropna s)| / npStd (dropna s)) =
            zRaw s from rfl]
      rw [if_pos hz]
    refine ⟨heq, fun p hp => ?_⟩
    rw [heq] at hp
    have hp2 := (List.of_mem_zip hp).2
    rcases List.mem_map.mp hp2 with ⟨zi, hzi, hpe⟩
    have h1 : npMin (zRaw s) ≤ zi := npMin_le _ _ hzi
    have h2 : zi ≤ npMax (zRaw s) := le_npMax _ _ hzi
    have hd : 0 < npMax (zRaw s) - npMin (zRaw s) := by linarith
    constructor
    · rw [← hpe]; exact div_nonneg (by linarith) (by linarith)
    · rw [← hpe]
      rw [div_le_one hd]
      linarith
  · simp only [calculate_outlier_score]
    rw [if_pos hstd]
    rw [show (dropna s).map (fun x => |x - npMean (dropna s)| / npStd (dropna s)) =
          zRaw s from rfl]
    rw [if_neg (by rw [hz]; exact lt_irrefl _)]
  · have heq : calculate_outlier_score s =
        (naIndex s).zip ((dropna s).map (fun _ => (0 : ℝ))) := by
      simp only [calculate_outlier_score]
      rw [if_neg (by rw [hstd]; exact lt_irrefl 0)]
    intro p hp
    rw [heq] at hp
    have hp2 := (List.of_mem_zip hp).2
    rcases List.mem_map.mp hp2 with ⟨x, _, hpe⟩
    exact hpe.symm

/-- Counterexample to C5: on the series `[0, 1]` with threshold `0.9` the
code (population std `0.5`, z-scores `1`) flags both values, while the
claim's sample-std mask (sample std `√½ ≈ 0.707`, z-scores `√½`) flags
neither. -/
theorem detect_outliers_counterexample :
    detect_outliers [some 0, some 1] (9 / 10) ≠
      detect_outliers_claimed_sample [some 0, some 1] (9 / 10) := by
  have hcode : detect_outliers [some 0, some 1] (9 / 10) =
      [(0, true), (1, true)] := by
    have h2 : dropna [some 0, some 1] = [(0 : ℝ), 1] := rfl
    simp only [detect_outliers, zScoresOrZeros, h2]
    rw [if_pos (by rw [s5_std]; norm_num)]
    rw [s5_std, s5_mean]
    norm_num [naIndex, naIndexAux, List.zip, abs_of_nonneg, abs_of_nonpos]
  have hsqrt_lt : Real.sqrt (1 / 2) < 9 / 10 := by
    rw [show (9 / 10 : ℝ) = Real.sqrt ((9 / 10) ^ 2) by
      rw [Real.sqrt_sq (by norm_num)]]
    exact Real.sqrt_lt_sqrt (by norm_num) (by norm_num)
  have hsqrt_pos : 0 < Real.sqrt (1 / 2) := Real.sqrt_pos.mpr (by norm_num)
  have hdiv : (1 / 2) / Real.sqrt (1 / 2) = Real.sqrt (1 / 2) := by
    rw [div_eq_iff (ne_of_gt hsqrt_pos), Real.mul_self_sqrt (by norm_num)]
  have hclaim : detect_outliers_claimed_sample [some 0, some 1] (9 / 10) =
      [(0, false), (1, false)] := by
    have h2 : dropna [some 0, some 1] = [(0 : ℝ), 1] := rfl
    have hz0 : |(0 : ℝ) - 1 / 2| / Real.sqrt (1 / 2) = Real.sqrt (1 / 2) := by
      rw [show |(0 : ℝ) - 1 / 2| = 1 / 2 by rw [abs_of_nonpos] <;> norm_num]
      exact hdiv
    have hz1 : |(1 : ℝ) - 1 / 2| / Real.sqrt (1 / 2) = Real.sqrt (1 / 2) := by
      rw [show |(1 : ℝ) - 1 / 2| = 1 / 2 by rw [abs_of_nonneg] <;> norm_num]
      exact hdiv
    simp only [detect_outliers_claimed_sample, h2, s5_sampleStd, s5_mean,
      List.map_cons, List.map_nil, if_neg (ne_of_gt hsqrt_pos), hz0, hz1,
      gt_iff_lt, decide_eq_false (not_lt.mpr (le_of_lt hsqrt_lt))]
    rfl
  rw [hcode, hclaim]
  decide

/-- Claim C5 amended and proved: for every series and every nonnegative
threshold, `detect_outliers` computes the mask claim C5 describes with the
population standard deviation in place of the sample one. -/
theorem detect_outliers_amended (s : List (Option ℝ)) (t : ℝ) (ht : 0 ≤ t) :
    detect_outliers s t = detect_outliers_claimed_pop s t := by
  simp only [detect_outliers, detect_outliers_claimed_pop, zScoresOrZeros]
  by_cases h : 0 < npStd (dropna s)
  · rw [if_pos h]
    congr 1
    rw [List.map_map]
    refine List.map_congr_left (fun x _ => ?_)
    simp only [Function.comp, gt_iff_lt, if_neg (ne_of_gt h)]
  · have h0 : npStd (dropna s) = 0 :=
      le_antisymm (not_lt.mp h) (npStd_nonneg _)
    rw [if_neg h]
    congr 1
    rw [List.map_map]
    refine List.map_congr_left (fun x _ => ?_)
    simp only [Function.comp, if_pos h0, decide_eq_false (not_lt.mpr ht)]

/-- C10: `detect_outliers` and `calculate_outlier_score` are invariant under
affine rescaling `x ↦ a·x + b` with `a ≠ 0`: same output values at the same
index positions, for every series and every threshold. -/
theorem outlier_affine_invariance (s : List (Option ℝ)) (a b t : ℝ)
    (ha : a ≠ 0) :
    detect_outliers (affineMap a b s) t = detect_outliers s t ∧
    calculate_outlier_score (affineMap a b s) = calculate_outlier_score s := by
  have habs : 0 < |a| := abs_pos.mpr ha
  constructor
  · simp only [detect_outliers, naIndex_affineMap,
      zScoresOrZeros_affineMap a b s ha]
  · simp only [calculate_outlier_score, naIndex_affineMap]
    congr 1
    by_cases h : 0 < npStd (dropna s)
    · have h' : 0 < npStd (dropna (affineMap a b s)) := by
        rw [dropna_affineMap, npStd_affine]
        exact mul_pos habs h
      rw [if_pos h, if_pos h']
      rw [show (dropna (affineMap a b s)).map (fun x =>
            |x - npMean (dropna (affineMap a b s))| /
              npStd (dropna (affineMap a b s))) = zRaw (affineMap a b s)
          from rfl]
      rw [show (dropna s).map (fun x =>
            |x - npMean (dropna s)| / npStd (dropna s)) = zRaw s from rfl]
      rw [zRaw_affineMap a b s ha]
    · have h0 : npStd (dropna s) = 0 :=
        le_antisymm (not_lt.mp h) (npStd_nonneg _)
      have h0' : npStd (dropna (affineMap a b s)) = 0 := by
        rw [dropna_affineMap, npStd_affine, h0, mul_zero]
      rw [if_neg h, if_neg (by rw [h0']; exact lt_irrefl 0)]
      rw [dropna_affineMap, List.map_map]
      rfl

/-- C2: in every summary row,
`sentiment_confidence = min(article_count / 10, 1) × (1 − std)` where `std`
is the row's `sentiment_std` with missing values replaced by `0.5`; a group
of 20 articles with std 0 yields confidence `1.0`, and a single-article
group yields confidence `0.05`. -/
theorem sentiment_confidence_formula :
    (∀ (articles : List Article),
      ∀ r ∈ aggregate_daily_sentiment articles,
        r.sentiment_confidence =
          min ((r.article_count : ℝ) / 10) 1 *
            (1 - r.sentiment_std.getD (1 / 2))) ∧
    (aggregate_daily_sentiment
        (List.replicate 20 ⟨"NVDA", "2024-01-05", 1 / 10⟩)).map
      (fun r => r.sentiment_confidence) = [1] ∧
    (aggregate_daily_sentiment [⟨"NVDA", "2024-01-05", 3 / 10⟩]).map
      (fun r => r.sentiment_confidence) = [0.05] := by
  refine ⟨fun articles r hr => ?_, ?_, ?_⟩
  · obtain ⟨k, hk, hre⟩ := List.mem_map.mp hr
    subst hre
    rfl
  · rw [aggregate_replicate _ 20 (by norm_num)]
    norm_num [min_def]
  · rw [aggregate_single]
    norm_num

/-- Counterexample to C1: for the group `c1Articles` (scores `−1` and `1`,
both in `[−1, 1]`) the derived `sentiment_confidence` is
`0.2 × (1 − 1.4142) = −0.08284 < 0`, outside `[0, 1]`. -/
theorem sentiment_confidence_negative :
    c1Articles.map (fun a => a.sentiment_score) = [-1, 1] ∧
    (aggregate_daily_sentiment c1Articles).map
      (fun r => r.sentiment_confidence) = [-(2071 / 25000)] ∧
    ¬ (0 : ℝ) ≤ -(2071 / 25000) := by
  refine ⟨by simp [c1Articles], ?_, by norm_num⟩
  rw [aggregate_c1]
  rfl

/-- C1 corrected: every `sentiment_confidence` is at most `1`, and it is
nonnegative whenever the group's (rounded) `sentiment_std`, with missing
values replaced by `0.5`, is at most `1`; when the scores disagree strongly
the sample std exceeds `1` and the confidence is negative. -/
theorem sentiment_confidence_range (articles : List Article)
    (r : DailySentimentRow) (hr : r ∈ aggregate_daily_sentiment articles) :
    r.sentiment_confidence ≤ 1 ∧
    (r.sentiment_std.getD (1 / 2) ≤ 1 → 0 ≤ r.sentiment_confidence) := by
  obtain ⟨k, hk, hre⟩ := List.mem_map.mp hr
  subst hre
  dsimp only
  set scores := groupScores articles k with hsc
  set s := ((pandasStd scores).map round4).getD (1 / 2) with hs
  have hs0 : 0 ≤ s := by
    rw [hs]
    cases hps : pandasStd scores with
    | none => norm_num
    | some v =>
      have hv : 0 ≤ v := by
        rw [pandasStd] at hps
        split_ifs at hps with h
        rw [← Option.some.inj hps]
        exact Real.sqrt_nonneg _
      simpa using round4_nonneg v hv
  have hm0 : 0 ≤ min ((scores.length : ℝ) / 10) 1 :=
    le_min (by positivity) zero_le_one
  have hm1 : min ((scores.length : ℝ) / 10) 1 ≤ 1 := min_le_right _ _
  constructor
  · nlinarith
  · intro hs1
    exact mul_nonneg hm0 (by linarith)

/-- Counterexample to C3: on the NVDA scenario the code reports
`sentiment_std = 0.2` — the sample standard deviation, not the population
value `≈ 0.1633` the claim asserts — and `sentiment_confidence = 0.24`,
not `≈ 0.251`. -/
theorem aggregate_nvda_std_counterexample :
    (aggregate_daily_sentiment c3Articles).map
      (fun r => r.sentiment_std) = [some (1 / 5)] ∧
    (aggregate_daily_sentiment c3Articles).map
      (fun r => r.sentiment_confidence) = [6 / 25] ∧
    (1 / 5 : ℝ) ≠ 1633 / 10000 ∧ (6 / 25 : ℝ) ≠ 251 / 1000 := by
  refine ⟨?_, ?_, by norm_num, by norm_num⟩ <;> rw [aggregate_c3] <;> rfl

/-- C3 corrected: for the NVDA 2024-01-05 group with scores
`[0.2, 0.4, 0.6]`, `aggregate_daily_sentiment` produces mean `0.4`, the
SAMPLE standard deviation `0.2`, and confidence
`min(0.3, 1) × (1 − 0.2) = 0.24`. -/
theorem aggregate_nvda_scenario :
    aggregate_daily_sentiment c3Articles =
      [⟨"NVDA", "2024-01-05", 2 / 5, some (1 / 5), 3, 3, 6 / 25⟩] :=
  aggregate_c3

/-- C6 corrected: for an input table with a `Close` column, the output has
a `ReturnsOutlierScore` column if and only if the input has BOTH `High`
and `Low` — not "regardless of whether High and Low are present". -/
theorem returns_outlier_iff_high_low (df : DataFrame) (h : InputTable df)
    (close : Col) (hc : getCol df "Close" = some close) :
    hasCol (normalize_price_movements df) "ReturnsOutlierScore" = true ↔
      (hasCol df "High" = true ∧ hasCol df "Low" = true) := by
  simp only [normalize_price_movements, hc]
  rw [hasCol_fillAllCols]
  have hHigh : getCol (npmPriceFeatures df close) "High" = getCol df "High" :=
    getCol_npmPriceFeatures_other df close "High" (by decide) (by decide)
      (by decide) (by decide) (by decide)
  have hLow : getCol (npmPriceFeatures df close) "Low" = getCol df "Low" :=
    getCol_npmPriceFeatures_other df close "Low" (by decide) (by decide)
      (by decide) (by decide) (by decide)
  constructor
  · intro hros
    by_contra hne
    have hnone : getCol df "High" = none ∨ getCol df "Low" = none := by
      rcases not_and_or.mp hne with hx | hx
      · left
        cases hh : getCol df "High" with
        | none => rfl
        | some w => exact absurd (by simp [hasCol, hh]) hx
      · right
        cases hh : getCol df "Low" with
        | none => rfl
        | some w => exact absurd (by simp [hasCol, hh]) hx
    have hskip : npmVolatilityFeatures (npmPriceFeatures df close) close =
        npmPriceFeatures df close := by
      refine npmVolatilityFeatures_no_high_low _ _ ?_
      rcases hnone with hx | hx
      · exact Or.inl (hHigh.trans hx)
      · exact Or.inr (hLow.trans hx)
    rw [hskip, hasCol,
      getCol_npmPriceFeatures_other df close "ReturnsOutlierScore"
        (by decide) (by decide) (by decide) (by decide) (by decide),
      getCol_eq_none_of_inputTable df h "ReturnsOutlierScore"
        (by decide)] at hros
    exact absurd hros (by simp)
  · rintro ⟨hhi, hlo⟩
    obtain ⟨hi, hhi'⟩ := Option.isSome_iff_exists.mp hhi
    obtain ⟨lo, hlo'⟩ := Option.isSome_iff_exists.mp hlo
    have hret : hasCol (npmPriceFeatures df close) "Returns" = true := by
      rw [hasCol, getCol_npmPriceFeatures_returns]
      rfl
    rw [hasCol, getCol_npmVolatilityFeatures_ros (npmPriceFeatures df close)
      close hi lo (hHigh.trans hhi') (hLow.trans hlo') hret]
    rfl

/-- Counterexample to C6: on `df6` (numeric `Close`, no `High`/`Low`) the
output has the `Returns` column but NO `ReturnsOutlierScore` column. -/
theorem returns_outlier_skipped_without_high_low :
    hasCol (normalize_price_movements df6) "Returns" = true ∧
    hasCol (normalize_price_movements df6) "ReturnsOutlierScore"
      = false := by
  have hc : getCol df6 "Close" = some [some 1, some 2, some 4] := by
    simp [df6, getCol, List.find?]
  have hIT : InputTable df6 := by
    constructor
    · intro p hp
      simp only [df6, List.mem_cons, List.not_mem_nil, or_false] at hp
      subst hp
      decide
    · simp [df6]
  refine ⟨hasCol_npm_returns df6 _ hc, ?_⟩
  have hHigh : getCol df6 "High" = none := by
    simp [df6, getCol, List.find?,
      (by decide : (("Close" : String) == "High") = false)]
  have hskip : npmVolatilityFeatures
      (npmPriceFeatures df6 [some 1, some 2, some 4])
      [some 1, some 2, some 4] =
      npmPriceFeatures df6 [some 1, some 2, some 4] := by
    refine npmVolatilityFeatures_no_high_low _ _ (Or.inl ?_)
    rw [getCol_npmPriceFeatures_other df6 _ "High" (by decide) (by decide)
      (by decide) (by decide) (by decide)]
    exact hHigh
  simp only [normalize_price_movements, hc]
  rw [hasCol_fillAllCols, hskip, hasCol,
    getCol_npmPriceFeatures_other df6 _ "ReturnsOutlierScore" (by decide)
      (by decide) (by decide) (by decide) (by decide),
    getCol_eq_none_of_inputTable df6 hIT "ReturnsOutlierScore" (by decide)]
  rfl

/-- Counterexample to C7: `normalize_price_movements` mutates its argument
in place and returns that same object, so after the call on `df7` the
caller's table is no longer the original (a `Returns` column has appeared
in it). -/
theorem tableAfterCall_changes_input : tableAfterCall df7 ≠ df7 := by
  intro heq
  have hc : getCol df7 "Close" = some [some 1, some 2] := by
    simp [df7, getCol, List.find?]
  have h1 := hasCol_npm_returns df7 _ hc
  simp only [tableAfterCall] at heq
  rw [heq, hasCol] at h1
  have h2 : getCol df7 "Returns" = none := by
    simp [df7, getCol, List.find?,
      (by decide : (("Close" : String) == "Returns") = false)]
  rw [h2] at h1
  exact absurd h1 (by simp)

/-- C7 corrected: the call is not a pure immutable-in/new-out
transformation: it mutates the table in place and returns the same object,
so for every input table (per the OHLCV contract) with a `Close` column the
argument differs from its original value after the call. -/
theorem normalize_price_movements_not_pure (df : DataFrame)
    (h : InputTable df) (hclose : hasCol df "Close" = true) :
    tableAfterCall df ≠ df := by
  obtain ⟨close, hc⟩ := Option.isSome_iff_exists.mp hclose
  intro heq
  have h1 := hasCol_npm_returns df close hc
  simp only [tableAfterCall] at heq
  rw [heq, hasCol,
    getCol_eq_none_of_inputTable df h "Returns" (by decide)] at h1
  exact absurd h1 (by simp)

/-- C8: for every input table (per the OHLCV contract) with a numeric
`Close` column, the output contains `NormalizedPrice` iff
`max(Close) > min(Close)` strictly (NaN min/max count as no), and when
present the column attains minimum `0` and maximum `1`. -/
theorem normalized_price_minmax (df : DataFrame) (h : InputTable df)
    (close : Col) (hc : getCol df "Close" = some close) :
    (hasCol (normalize_price_movements df) "NormalizedPrice" = true ↔
      ∃ mn mx, colMin close = some mn ∧ colMax close = some mx ∧ mn < mx) ∧
    (∀ mn mx, colMin close = some mn → colMax close = some mx → mn < mx →
      ∃ np, getCol (normalize_price_movements df) "NormalizedPrice"
          = some np ∧ colMin np = some 0 ∧ colMax np = some 1) := by
  have hvol_other : ∀ d : DataFrame,
      getCol (npmVolatilityFeatures d close) "NormalizedPrice" =
        getCol d "NormalizedPrice" := fun d =>
    getCol_npmVolatilityFeatures_other d close _ (by decide) (by decide)
      (by decide)
  constructor
  · simp only [normalize_price_movements, hc]
    rw [hasCol_fillAllCols, hasCol, hvol_other]
    constructor
    · intro hsome
      by_contra hne
      have hdeg : ∀ mn mx, colMin close = some mn → colMax close = some mx →
          ¬ mn < mx := fun mn mx h1 h2 h3 => hne ⟨mn, mx, h1, h2, h3⟩
      rw [getCol_npmPriceFeatures_np_absent df close
        (getCol_eq_none_of_inputTable df h "NormalizedPrice" (by decide))
        hdeg] at hsome
      exact absurd hsome (by simp)
    · rintro ⟨mn, mx, h1, h2, h3⟩
      rw [getCol_npmPriceFeatures_np_present df close mn mx h1 h2 h3]
      rfl
  · intro mn mx h1 h2 h3
    obtain ⟨hmem_mn, hle⟩ := colMin_spec close mn h1
    obtain ⟨hmem_mx, hge⟩ := colMax_spec close mx h2
    have hd : (0 : ℝ) < mx - mn := by linarith
    refine ⟨bfillCol (ffillFrom none
      (close.map (Option.map (fun x => (x - mn) / (mx - mn))))), ?_, ?_, ?_⟩
    · simp only [normalize_price_movements, hc]
      rw [getCol_fillAllCols, hvol_other,
        getCol_npmPriceFeatures_np_present df close mn mx h1 h2 h3]
      rfl
    · refine colMin_eq_of _ 0 ?_ ?_
      · rw [mem_dropna]
        refine mem_fill_of_mem _ 0 ?_
        rw [← mem_dropna, dropna_map]
        refine List.mem_map.mpr ⟨mn, hmem_mn, ?_⟩
        rw [sub_self, zero_div]
      · intro v hv
        rw [mem_dropna] at hv
        have hv' := mem_of_mem_fill _ _ hv
        rw [← mem_dropna, dropna_map] at hv'
        obtain ⟨x, hx, rfl⟩ := List.mem_map.mp hv'
        exact div_nonneg (by linarith [hle x hx]) (le_of_lt hd)
    · refine colMax_eq_of _ 1 ?_ ?_
      · rw [mem_dropna]
        refine mem_fill_of_mem _ 1 ?_
        rw [← mem_dropna, dropna_map]
        refine List.mem_map.mpr ⟨mx, hmem_mx, ?_⟩
        exact div_self (ne_of_gt hd)
      · intro v hv
        rw [mem_dropna] at hv
        have hv' := mem_of_mem_fill _ _ hv
        rw [← mem_dropna, dropna_map] at hv'
        obtain ⟨x, hx, rfl⟩ := List.mem_map.mp hv'
        rw [div_le_one hd]
        linarith [hge x hx]

/-- Witness for C4 at `w4`: the positive-std, non-constant-z branch applies
and every score is in `[0, 1]`. -/
theorem calculate_outlier_score_cases_witness :
    calculate_outlier_score w4 =
      (naIndex w4).zip ((zRaw w4).map (fun zi =>
        (zi - npMin (zRaw w4)) / (npMax (zRaw w4) - npMin (zRaw w4)))) ∧
    ∀ p ∈ calculate_outlier_score w4, 0 ≤ p.2 ∧ p.2 ≤ 1 :=
  (calculate_outlier_score_cases w4).1
    (by rw [w4_dropna, w4_std]; norm_num)
    (by rw [w4_zmin, w4_zmax]; norm_num)

/-- Witness for the amended C5 at the series `[0, 1]` with the default
threshold `3`. -/
theorem detect_outliers_amended_witness :
    detect_outliers [some 0, some 1] 3 =
      detect_outliers_claimed_pop [some 0, some 1] 3 :=
  detect_outliers_amended [some 0, some 1] 3 (by norm_num)

/-- Witness for C10 at `a = 2`, `b = 3`, a concrete series with a missing
cell, and the default threshold. -/
theorem outlier_affine_invariance_witness :
    detect_outliers (affineMap 2 3 [some 0, none, some 1]) 3 =
      detect_outliers [some 0, none, some 1] 3 ∧
    calculate_outlier_score (affineMap 2 3 [some 0, none, some 1]) =
      calculate_outlier_score [some 0, none, some 1] :=
  outlier_affine_invariance [some 0, none, some 1] 2 3 3 (by norm_num)

/-- Witness for the universally quantified part of C2 at the one-article
collection `[⟨"XOM", "2024-01-03", 0.5⟩]` and its unique summary row. -/
theorem sentiment_confidence_formula_witness :
    (⟨"XOM", "2024-01-03", 1 / 2, none, 1, 1, 1 / 20⟩ :
        DailySentimentRow).sentiment_confidence =
      min (((⟨"XOM", "2024-01-03", 1 / 2, none, 1, 1, 1 / 20⟩ :
          DailySentimentRow).article_count : ℝ) / 10) 1 *
        (1 - (⟨"XOM", "2024-01-03", 1 / 2, none, 1, 1, 1 / 20⟩ :
          DailySentimentRow).sentiment_std.getD (1 / 2)) :=
  sentiment_confidence_formula.1 [⟨"XOM", "2024-01-03", 1 / 2⟩] _ (by
    have h := aggregate_single ⟨"XOM", "2024-01-03", 1 / 2⟩
    rw [show round4 ((⟨"XOM", "2024-01-03", 1 / 2⟩ : Article).sentiment_score)
        = 1 / 2 from round4_half] at h
    rw [h]
    exact List.mem_singleton_self _)

/-- Witness for the corrected C1 at a concrete one-article collection and
its unique summary row (std missing, substituted `0.5 ≤ 1`, confidence
`0.05 ∈ [0, 1]`). -/
theorem sentiment_confidence_range_witness :
    (⟨"MSFT", "2024-01-04", 1 / 2, none, 1, 1, 1 / 20⟩ :
        DailySentimentRow).sentiment_confidence ≤ 1 ∧
    ((⟨"MSFT", "2024-01-04", 1 / 2, none, 1, 1, 1 / 20⟩ :
        DailySentimentRow).sentiment_std.getD (1 / 2) ≤ 1 →
      0 ≤ (⟨"MSFT", "2024-01-04", 1 / 2, none, 1, 1, 1 / 20⟩ :
        DailySentimentRow).sentiment_confidence) :=
  sentiment_confidence_range [⟨"MSFT", "2024-01-04", 1 / 2⟩] _ (by
    have h := aggregate_single ⟨"MSFT", "2024-01-04", 1 / 2⟩
    rw [show round4 ((⟨"MSFT", "2024-01-04", 1 / 2⟩ :
        Article).sentiment_score) = 1 / 2 from round4_half] at h
    rw [h]
    exact List.mem_singleton_self _)

/-- Witness for the corrected C6 at a table with `Close`, `High` and `Low`
present. -/
theorem returns_outlier_iff_high_low_witness :
    hasCol (normalize_price_movements
        [("High", [some 3]), ("Low", [some 1]), ("Close", [some 2])])
        "ReturnsOutlierScore" = true ↔
      (hasCol [("High", [some 3]), ("Low", [some 1]), ("Close", [some 2])]
          "High" = true ∧
        hasCol [("High", [some 3]), ("Low", [some 1]), ("Close", [some 2])]
          "Low" = true) :=
  returns_outlier_iff_high_low _
    (by
      constructor
      · intro p hp
        simp only [List.mem_cons, List.not_mem_nil, or_false] at hp
        rcases hp with rfl | rfl | rfl <;> decide
      · simp)
    [some 2]
    (by simp [getCol, List.find?])

/-- Witness for C8 at `df8`: the normalized price column exists and attains
`0` and `1`. -/
theorem normalized_price_minmax_witness :
    ∃ np, getCol (normalize_price_movements df8) "NormalizedPrice"
        = some np ∧ colMin np = some 0 ∧ colMax np = some 1 :=
  (normalized_price_minmax df8
    (by
      constructor
      · intro p hp
        simp only [df8, List.mem_cons, List.not_mem_nil, or_false] at hp
        subst hp
        decide
      · simp [df8])
    [some 1, some 3, some 2]
    (by simp [df8, getCol, List.find?])).2 1 3
    (by
      have hd : dropna [some (1 : ℝ), some 3, some 2] = [1, 3, 2] := rfl
      simp only [colMin, hd, List.foldl_cons, List.foldl_nil]
      norm_num [min_def])
    (by
      have hd : dropna [some (1 : ℝ), some 3, some 2] = [1, 3, 2] := rfl
      simp only [colMax, hd, List.foldl_cons, List.foldl_nil]
      norm_num [max_def])
    (by norm_num)

/-- Witness for C9 at the concrete all-missing series `[none, none]`. -/
theorem calculate_outlier_score_empty_witness :
    calculate_outlier_score [none, none] = [] :=
  calculate_outlier_score_empty [none, none] rfl

/-- Witness for the corrected C7 at the concrete table `df7b`. -/
theorem normalize_price_movements_not_pure_witness :
    tableAfterCall df7b ≠ df7b :=
  normalize_price_movements_not_pure df7b
    (by
      constructor
      · intro p hp
        simp only [df7b, List.mem_cons, List.not_mem_nil, or_false] at hp
        subst hp
        decide
      · simp [df7b])
    (by simp [df7b, hasCol, getCol, List.find?])

end QuantML
